import Mathlib

/-!
Verification of the data-parsing and extraction-validation layer of the
manus-browser-assistant repository.  The TypeScript sources embedded here are
src/web-app/src/lib/extraction-validator.ts and the data-parser module
(parseExtractedData and its helpers).  JavaScript strings are modelled as Lean
strings, JavaScript objects as ordered association lists, and the handful of
platform builtins the code calls (trim, toLowerCase, includes, startsWith,
JSON.stringify) are given explicit executable models next to their uses.
-/

/-- Model of the JavaScript trim builtin: drop leading and trailing
whitespace characters.  The model covers the ASCII whitespace characters the
repository ever produces (space, tab, carriage return, line feed). -/
def isJsSpace (c : Char) : Bool := c = ' ' || c = '\t' || c = '\n' || c = '\r'

/-- JavaScript trim on both ends of a string. -/
def jsTrim (s : String) : String :=
  ⟨((s.data.dropWhile isJsSpace).reverse.dropWhile isJsSpace).reverse⟩

/-- Model of the JavaScript toLowerCase builtin, character by character. -/
def jsToLower (s : String) : String := ⟨s.data.map Char.toLower⟩

/-- Model of the JavaScript includes builtin: substring containment. -/
def jsIncludes (s sub : String) : Bool := s.data.tails.any (fun t => sub.data.isPrefixOf t)

/-- Model of the JavaScript startsWith builtin. -/
def jsStartsWith (s p : String) : Bool := p.data.isPrefixOf s.data

/-- Model of the JavaScript Array.prototype.join with a separator. -/
def joinSep (sep : String) : List String → String
  | [] => ""
  | [x] => x
  | x :: xs => x ++ sep ++ joinSep sep xs

/-- The textbook unit-cost Levenshtein edit distance (insertion, deletion,
substitution), written as the standard recursion.  This is the specification
the validator claims to implement; the source implements it with a dynamic
programming matrix, embedded below as levDP. -/
def levSpec : List Char → List Char → Nat
  | [], ys => ys.length
  | _ :: xs, [] => xs.length + 1
  | x :: xs, y :: ys =>
      if x = y then levSpec xs ys
      else 1 + min (levSpec xs ys) (min (levSpec xs (y :: ys)) (levSpec (x :: xs) ys))
termination_by xs ys => xs.length + ys.length
decreasing_by all_goals simp_wf <;> omega

/-- One inner iteration block of the dynamic-programming loop of
levenshteinDistance in extraction-validator.ts: given the character bc of the
second string for the current row, the remaining characters of the first
string, the entry diagonally above-left, the remaining entries of the previous
row, and the entry to the left, produce the rest of the current row.  The
formula mirrors the source: keep the diagonal on equal characters, otherwise
take the minimum of diagonal+1, left+1 and above+1. -/
def levRowAux (bc : Char) : List Char → Nat → List Nat → Nat → List Nat
  | [], _, _, left => [left]
  | ac :: tl, diag, rest, left =>
      let up := rest.headD 0
      let cur := if bc = ac then diag else min (diag + 1) (min (left + 1) (up + 1))
      left :: levRowAux bc tl up rest.tail cur

/-- One full row step of the matrix: row i is seeded with i (the source sets
matrix[i][0] = i, one more than the previous row head) and then filled in by
levRowAux. -/
def levNextRow (a : List Char) (bc : Char) (prev : List Nat) : List Nat :=
  levRowAux bc a (prev.headD 0) prev.tail (prev.headD 0 + 1)

/-- The dynamic-programming Levenshtein distance of extraction-validator.ts:
early returns for an empty argument, first matrix row 0..a.length, one
levNextRow per character of b, and the answer in the bottom-right cell. -/
def levDP (a b : List Char) : Nat :=
  if a.length = 0 then b.length
  else if b.length = 0 then a.length
  else (b.foldl (fun row bc => levNextRow a bc row) (List.range (a.length + 1))).getLastD 0

/-- levenshteinDistance from extraction-validator.ts, on strings. -/
def levenshteinDistance (a b : String) : Nat := levDP a.data b.data

theorem levSpec_nil (ys : List Char) : levSpec [] ys = ys.length := by
  simp [levSpec]

theorem levSpec_nil_right (xs : List Char) : levSpec xs [] = xs.length := by
  cases xs <;> simp [levSpec]

theorem levSpec_cons (x y : Char) (xs ys : List Char) :
    levSpec (x :: xs) (y :: ys) =
      if x = y then levSpec xs ys
      else 1 + min (levSpec xs ys) (min (levSpec xs (y :: ys)) (levSpec (x :: xs) ys)) := by
  rw [levSpec]

set_option maxHeartbeats 1600000 in
theorem levSpec_snoc_bounded (x y : Char) :
    ∀ (n : Nat) (xs ys : List Char), xs.length + ys.length ≤ n →
      levSpec (xs ++ [x]) (ys ++ [y]) =
        if x = y then levSpec xs ys
        else 1 + min (levSpec xs ys) (min (levSpec xs (ys ++ [y])) (levSpec (xs ++ [x]) ys)) := by
  intro n
  induction n with
  | zero =>
      intro xs ys h
      cases xs with
      | nil =>
        cases ys with
        | nil => simp only [List.nil_append, levSpec_cons, levSpec_nil, levSpec_nil_right]
        | cons y0 ys2 => simp at h
      | cons x0 xs2 => simp at h
  | succ n ih =>
      intro xs ys h
      cases xs with
      | nil =>
        cases ys with
        | nil => simp only [List.nil_append, levSpec_cons, levSpec_nil, levSpec_nil_right]
        | cons y0 ys2 =>
          have hIH := ih [] ys2 (by simp only [List.length_nil, List.length_cons] at h ⊢; omega)
          simp only [List.nil_append] at hIH ⊢
          simp only [List.cons_append]
          simp only [levSpec_cons]
          rw [hIH]
          simp only [levSpec_nil, List.length_append, List.length_cons, List.length_nil]
          by_cases hq : x = y <;> by_cases hs : x = y0 <;>
            simp only [hq, hs, if_true, if_false, ite_true, ite_false, if_pos, if_neg,
              not_false_iff, eq_self_iff_true] <;>
            first | (split_ifs <;> omega) | omega
      | cons x0 xs2 =>
        cases ys with
        | nil =>
          have hIH := ih xs2 [] (by simp only [List.length_nil, List.length_cons] at h ⊢; omega)
          simp only [List.nil_append] at hIH ⊢
          simp only [List.cons_append]
          simp only [levSpec_cons]
          rw [hIH]
          simp only [levSpec_nil, levSpec_nil_right, List.length_append, List.length_cons,
            List.length_nil]
          by_cases hq : x = y <;> by_cases hs : x0 = y <;>
            simp only [hq, hs, if_true, if_false, ite_true, ite_false] <;>
            first | (split_ifs <;> omega) | omega
        | cons y0 ys2 =>
          have h1 : xs2.length + ys2.length ≤ n := by
            simp only [List.length_cons] at h; omega
          have h2 : xs2.length + (y0 :: ys2).length ≤ n := by
            simp only [List.length_cons] at h ⊢; omega
          have h3 : (x0 :: xs2).length + ys2.length ≤ n := by
            simp only [List.length_cons] at h ⊢; omega
          have hIH1 := ih xs2 ys2 h1
          have hIH2 := ih xs2 (y0 :: ys2) h2
          have hIH3 := ih (x0 :: xs2) ys2 h3
          simp only [List.cons_append] at hIH2 hIH3 ⊢
          simp only [levSpec_cons]
          rw [hIH1, hIH2, hIH3]
          by_cases hq : x = y <;> by_cases hp : x0 = y0
          · simp [hq, hp]
          · simp [hq, hp]
          · simp [hq, hp]
          · have hpush : ∀ u v w : Nat, u + min v w = min (u + v) (u + w) := by
              intro u v w; omega
            simp only [hq, hp, ite_false, if_false]
            simp only [hpush]
            simp only [min_comm, min_left_comm, min_assoc]

theorem levSpec_snoc (x y : Char) (xs ys : List Char) :
    levSpec (xs ++ [x]) (ys ++ [y]) =
      if x = y then levSpec xs ys
      else 1 + min (levSpec xs ys) (min (levSpec xs (ys ++ [y])) (levSpec (xs ++ [x]) ys)) :=
  levSpec_snoc_bounded x y (xs.length + ys.length) xs ys le_rfl

theorem levRowAux_cons (bc ac : Char) (tl : List Char) (diag : Nat) (rest : List Nat)
    (left : Nat) :
    levRowAux bc (ac :: tl) diag rest left =
      left :: levRowAux bc tl (rest.headD 0) rest.tail
        (if bc = ac then diag else min (diag + 1) (min (left + 1) (rest.headD 0 + 1))) := by
  rw [levRowAux]

theorem levRowAux_spec (bc : Char) (bs : List Char) :
    ∀ (tl pre : List Char),
      levRowAux bc tl (levSpec pre bs)
        ((List.range tl.length).map (fun j => levSpec (pre ++ tl.take (j + 1)) bs))
        (levSpec pre (bs ++ [bc]))
      = (List.range (tl.length + 1)).map (fun j => levSpec (pre ++ tl.take j) (bs ++ [bc])) := by
  intro tl
  induction tl with
  | nil =>
      intro pre
      simp [levRowAux]
  | cons ac tl2 ih =>
      intro pre
      have hcur :
          (if bc = ac then levSpec pre bs
            else min (levSpec pre bs + 1)
              (min (levSpec pre (bs ++ [bc]) + 1) (levSpec (pre ++ [ac]) bs + 1)))
          = levSpec (pre ++ [ac]) (bs ++ [bc]) := by
        rw [levSpec_snoc]
        by_cases h : bc = ac
        · simp [h]
        · have h2 : ¬ ac = bc := fun hh => h hh.symm
          simp only [h, h2, ite_false, if_false]
          omega
      have hrestform :
          (List.range (tl2.length + 1)).map
              (fun j => levSpec (pre ++ (ac :: tl2).take (j + 1)) bs)
          = levSpec (pre ++ [ac]) bs ::
              (List.range tl2.length).map
                (fun j => levSpec ((pre ++ [ac]) ++ tl2.take (j + 1)) bs) := by
        rw [List.range_succ_eq_map, List.map_cons, List.map_map]
        refine congrArg₂ _ ?_ ?_
        · simp
        · apply List.map_congr_left
          intro j _
          simp [Function.comp, List.take_succ_cons, List.append_assoc]
      have hrhsform :
          (List.range (tl2.length + 1 + 1)).map
              (fun j => levSpec (pre ++ (ac :: tl2).take j) (bs ++ [bc]))
          = levSpec pre (bs ++ [bc]) ::
              (List.range (tl2.length + 1)).map
                (fun j => levSpec ((pre ++ [ac]) ++ tl2.take j) (bs ++ [bc])) := by
        rw [List.range_succ_eq_map, List.map_cons, List.map_map]
        refine congrArg₂ _ ?_ ?_
        · simp
        · apply List.map_congr_left
          intro j _
          simp [Function.comp, List.take_succ_cons, List.append_assoc]
      simp only [List.length_cons]
      rw [hrestform, levRowAux_cons]
      simp only [List.headD_cons, List.tail_cons]
      rw [hcur, ih (pre ++ [ac]), hrhsform]

theorem levFold_spec (a : List Char) :
    ∀ (bs done : List Char),
      bs.foldl (fun row bc => levNextRow a bc row)
        ((List.range (a.length + 1)).map (fun j => levSpec (a.take j) done))
      = (List.range (a.length + 1)).map (fun j => levSpec (a.take j) (done ++ bs)) := by
  intro bs
  induction bs with
  | nil =>
      intro done
      simp
  | cons bc bs2 ih =>
      intro done
      rw [List.foldl_cons]
      have hprev : (List.range (a.length + 1)).map (fun j => levSpec (a.take j) done)
          = levSpec [] done ::
              (List.range a.length).map (fun j => levSpec ([] ++ a.take (j + 1)) done) := by
        rw [List.range_succ_eq_map, List.map_cons, List.map_map]
        refine congrArg₂ _ ?_ ?_
        · simp
        · apply List.map_congr_left
          intro j _
          simp [Function.comp]
      have hstep : levNextRow a bc
            ((List.range (a.length + 1)).map (fun j => levSpec (a.take j) done))
          = (List.range (a.length + 1)).map (fun j => levSpec (a.take j) (done ++ [bc])) := by
        unfold levNextRow
        rw [hprev]
        simp only [List.headD_cons, List.tail_cons]
        have hleft : levSpec [] done + 1 = levSpec [] (done ++ [bc]) := by
          simp [levSpec_nil]
        rw [hleft, levRowAux_spec bc done a []]
        apply List.map_congr_left
        intro j _
        simp
      rw [hstep, ih (done ++ [bc])]
      apply List.map_congr_left
      intro j _
      simp [List.append_assoc]

theorem levDP_eq_levSpec (a b : List Char) : levDP a b = levSpec a b := by
  unfold levDP
  by_cases ha : a.length = 0
  · have ha2 : a = [] := List.length_eq_zero.mp ha
    subst ha2
    simp [levSpec_nil]
  · by_cases hb : b.length = 0
    · have hb2 : b = [] := List.length_eq_zero.mp hb
      subst hb2
      simp [ha, levSpec_nil_right]
    · simp only [ha, hb, ite_false, if_false]
      have hinit : List.range (a.length + 1)
          = (List.range (a.length + 1)).map (fun j => levSpec (a.take j) []) := by
        conv_lhs => rw [← List.map_id (List.range (a.length + 1))]
        apply List.map_congr_left
        intro j hj
        simp only [List.mem_range] at hj
        simp only [levSpec_nil_right, List.length_take, id]
        omega
      rw [hinit, levFold_spec a b []]
      have hsplit : List.range (a.length + 1) = List.range a.length ++ [a.length] :=
        List.range_succ a.length
      rw [hsplit, List.map_append, List.map_cons, List.map_nil]
      rw [List.getLastD_concat]
      simp [List.take_length]

theorem levenshteinDistance_eq_levSpec (a b : String) :
    levenshteinDistance a b = levSpec a.data b.data :=
  levDP_eq_levSpec a.data b.data

theorem levenshteinDistance_sample1 :
    levenshteinDistance ⟨['t', 't', 'l']⟩ ⟨['t', 'i', 't', 'l', 'e']⟩ = 2 := by decide

theorem levenshteinDistance_sample2 :
    levenshteinDistance ⟨['k', 'i', 't', 't', 'e', 'n']⟩
      ⟨['s', 'i', 't', 't', 'i', 'n', 'g']⟩ = 3 := by decide

/-- The four issue kinds of ValidationIssue.type in extraction-validator.ts. -/
inductive IssueType where
  | missing_column
  | empty_field
  | insufficient_rows
  | inconsistent_columns
deriving DecidableEq, Repr

/-- The two severities of ValidationIssue.severity. -/
inductive Severity where
  | error
  | warning
deriving DecidableEq, Repr

/-- A detail value of ValidationIssue.details.expected or .actual, which the
TypeScript type declares as string or number. -/
inductive StrNum where
  | str (s : String)
  | num (n : Nat)
deriving DecidableEq, Repr

/-- The optional details record of a ValidationIssue; absent fields are none. -/
structure IssueDetails where
  expected : Option StrNum := none
  actual : Option StrNum := none
  rowIndex : Option Nat := none
  fields : Option (List String) := none
deriving DecidableEq, Repr

/-- ValidationIssue from extraction-validator.ts. -/
structure ValidationIssue where
  type : IssueType
  message : String
  severity : Severity
  details : Option IssueDetails := none
deriving DecidableEq, Repr

/-- ValidationResult from extraction-validator.ts. -/
structure ValidationResult where
  isValid : Bool
  validRows : Nat
  totalRows : Nat
  issues : List ValidationIssue
deriving DecidableEq, Repr

/-- A data row, Record of string keys to string values.  JavaScript objects
are modelled as ordered association lists; a value of none models a null or
undefined entry, which the source code defends against even though the
declared TypeScript type is string. -/
abbrev Row := List (String × Option String)

/-- ValidationParams from extraction-validator.ts; the optional parameters are
modelled with Option. -/
structure ValidationParams where
  data : List Row
  expectedColumns : Option (List String) := none
  expectedMinRows : Option Nat := none

/-- Object.keys of a row: its keys in insertion order. -/
def rowFields (row : Row) : List String := row.map Prod.fst

/-- Property read row[key]: the first entry with the key, none (undefined)
when the key is absent. -/
def rowGet (row : Row) (k : String) : Option String :=
  match row.find? (fun p => p.1 == k) with
  | some p => p.2
  | none => none

/-- The emptiness test of the validator: a value is empty when it is null,
undefined, or trims to the empty string. -/
def isEmptyValue (v : Option String) : Bool :=
  match v with
  | none => true
  | some s => jsTrim s == ""

/-- The empty fields of a row, in key order, as computed by the source scan. -/
def emptyFieldsOf (row : Row) : List String :=
  (rowFields row).filter (fun k => isEmptyValue (rowGet row k))

/-- Check 1 of validateExtraction: the row-count warning.  The truthiness test
on expectedMinRows means the check is skipped both when the parameter is
absent and when it is zero. -/
def rowCountIssues (data : List Row) (emr : Option Nat) : List ValidationIssue :=
  match emr with
  | none => []
  | some m =>
      if m ≠ 0 ∧ data.length < m then
        [{ type := .insufficient_rows,
           message := "Expected at least " ++ toString m ++ " rows, got " ++
             toString data.length,
           severity := .warning,
           details := some { expected := some (.num m), actual := some (.num data.length) } }]
      else []

/-- The fuzzy column matcher of check 2: case-fold both names, then accept on
substring containment either way or Levenshtein distance at most 2. -/
def missingColumnsOf (actualColumns : List String) (expectedCols : List String) :
    List String :=
  let normalizedActual := actualColumns.map jsToLower
  expectedCols.filter fun expected =>
    let ne := jsToLower expected
    !(normalizedActual.any fun actual =>
        jsIncludes actual ne || jsIncludes ne actual ||
          decide (levenshteinDistance actual ne ≤ 2))

/-- Check 2 of validateExtraction: the aggregated missing-column error. -/
def columnIssues (data : List Row) (eco : Option (List String)) : List ValidationIssue :=
  match eco with
  | none => []
  | some ec =>
      if ec.length = 0 then []
      else
        let actualColumns := if data.length > 0 then rowFields (data.headD []) else []
        let missing := missingColumnsOf actualColumns ec
        if missing.length = 0 then []
        else
          [{ type := .missing_column,
             message := "Missing expected columns: " ++ joinSep ", " missing,
             severity := .error,
             details := some { expected := some (.str (joinSep ", " missing)),
                               actual := some (.str (joinSep ", " actualColumns)) } }]

/-- Check 3 accumulator: rows with no empty field, counted by the forEach. -/
def validRowsOf (data : List Row) : Nat :=
  (data.filter (fun r => (emptyFieldsOf r).length = 0)).length

/-- Check 3 accumulator: the 1-based indices of rows whose empty-field list is
nonempty and covers every field (the else-if branch of the forEach). -/
def emptyRowIndices (data : List Row) : List Nat :=
  data.enum.filterMap fun p =>
    if (emptyFieldsOf p.2).length = 0 then none
    else if (emptyFieldsOf p.2).length = (rowFields p.2).length then some (p.1 + 1)
    else none

/-- Check 3 accumulator: the 1-based indices and empty-field names of rows
with some but not all fields empty (the final else branch of the forEach). -/
def partiallyEmptyRows (data : List Row) : List (Nat × List String) :=
  data.enum.filterMap fun p =>
    if (emptyFieldsOf p.2).length = 0 then none
    else if (emptyFieldsOf p.2).length = (rowFields p.2).length then none
    else some (p.1 + 1, emptyFieldsOf p.2)

/-- Check 3 report: the completely-empty-rows error with its singular or
plural message, built from a list of 1-based indices. -/
def emptyRowIssuesFrom (idxs : List Nat) : List ValidationIssue :=
  if idxs.length = 0 then []
  else
    [{ type := .empty_field,
       message :=
         if idxs.length = 1 then
           "Row " ++ toString (idxs.headD 0) ++ " is completely empty"
         else
           "Rows " ++ joinSep ", " (idxs.map toString) ++ " are completely empty",
       severity := .error,
       details := some { rowIndex := some (idxs.headD 0) } }]

/-- Check 3 report of the completely-empty-rows error. -/
def emptyRowIssues (data : List Row) : List ValidationIssue :=
  emptyRowIssuesFrom (emptyRowIndices data)

/-- Check 3 report: per-row warnings for up to three partially empty rows, a
single aggregated warning beyond that, built from the index and field list. -/
def partialIssuesFrom (pe : List (Nat × List String)) : List ValidationIssue :=
  if pe.length = 0 then []
  else if pe.length ≤ 3 then
    pe.map fun pr =>
      { type := .empty_field,
        message := "Row " ++ toString pr.1 ++ " has empty fields: " ++ joinSep ", " pr.2,
        severity := .warning,
        details := some { rowIndex := some pr.1, fields := some pr.2 } }
  else
    [{ type := .empty_field,
       message := toString pe.length ++ " rows have some empty fields",
       severity := .warning }]

/-- Check 3 report of the partially-empty-row warnings. -/
def partialIssues (data : List Row) : List ValidationIssue :=
  partialIssuesFrom (partiallyEmptyRows data)

/-- Check 4 of validateExtraction: the column-consistency warning.  The Set of
first-row keys is modelled by eraseDups for its size and by membership for
its has test. -/
def consistencyIssues (data : List Row) : List ValidationIssue :=
  if data.length > 1 then
    let firstKeys := rowFields (data.headD [])
    let inconsistentRows :=
      (data.filter fun row =>
        !((rowFields row).length == firstKeys.eraseDups.length &&
          (rowFields row).all (fun k => firstKeys.contains k))).length
    if inconsistentRows > 0 then
      [{ type := .inconsistent_columns,
         message := toString inconsistentRows ++ " rows have different columns than expected",
         severity := .warning }]
    else []
  else []

/-- validateExtraction from extraction-validator.ts: the empty-data early
return, then the four checks in order, then the verdict that only
error-severity issues invalidate. -/
def validateExtraction (params : ValidationParams) : ValidationResult :=
  if params.data.length = 0 then
    { isValid := false,
      validRows := 0,
      totalRows := 0,
      issues := [{ type := .insufficient_rows,
                   message := "No data was extracted",
                   severity := .error,
                   details := some { expected := some (.num (params.expectedMinRows.getD 1)),
                                     actual := some (.num 0) } }] }
  else
    let issues :=
      rowCountIssues params.data params.expectedMinRows ++
      columnIssues params.data params.expectedColumns ++
      emptyRowIssues params.data ++
      partialIssues params.data ++
      consistencyIssues params.data
    { isValid := !(issues.any (fun i => i.severity == .error)),
      validRows := validRowsOf params.data,
      totalRows := params.data.length,
      issues := issues }

/-- The universe of JavaScript values the data parser receives.  Numbers are
modelled as integers; the repository only ever passes extracted strings and
JSON data through this code path. -/
inductive JSValue where
  | null
  | undefined
  | bool (b : Bool)
  | num (n : Int)
  | str (s : String)
  | arr (elems : List JSValue)
  | obj (fields : List (String × JSValue))

/-- JavaScript falsiness: null, undefined, false, 0 and the empty string are
falsy, everything else (including empty arrays and objects) is truthy. -/
def jsFalsy : JSValue → Bool
  | .null => true
  | .undefined => true
  | .bool b => !b
  | .num n => n == 0
  | .str s => s == ""
  | .arr _ => false
  | .obj _ => false

/-- Array.isArray. -/
def jsIsArray : JSValue → Bool
  | .arr _ => true
  | _ => false

/-- The elements of an array value, empty for anything else. -/
def jsArrElems : JSValue → List JSValue
  | .arr l => l
  | _ => []

/-- True for string values. -/
def jsIsString : JSValue → Bool
  | .str _ => true
  | _ => false

/-- The string payload of a string value. -/
def jsStrVal : JSValue → String
  | .str s => s
  | _ => ""

/-- The guard typeof v is object and v is not null, used both on parser input
and on the first array element.  Arrays satisfy it because typeof of an array
is object in JavaScript. -/
def jsIsObjectNotNull : JSValue → Bool
  | .obj _ => true
  | .arr _ => true
  | _ => false

mutual
/-- Model of the JavaScript String(value) coercion.  Array elements join with
commas, rendering null and undefined elements as empty, and plain objects
print as the usual object tag. -/
def jsToString : JSValue → String
  | .null => "null"
  | .undefined => "undefined"
  | .bool b => if b then "true" else "false"
  | .num n => toString n
  | .str s => s
  | .arr xs => joinSep "," (jsToStringList xs)
  | .obj _ => "[object Object]"

def jsToStringList : List JSValue → List String
  | [] => []
  | v :: vs =>
      (match v with
       | .null => ""
       | .undefined => ""
       | w => jsToString w) :: jsToStringList vs
end

/-- JSON string escaping for the characters the repository data can contain;
the model escapes quote, backslash and the common control characters. -/
def escJsonChar (c : Char) : String :=
  if c = '"' then "\\\""
  else if c = '\\' then "\\\\"
  else if c = '\n' then "\\n"
  else if c = '\r' then "\\r"
  else if c = '\t' then "\\t"
  else String.singleton c

/-- A JSON string literal for s. -/
def jsonQuote (s : String) : String :=
  "\"" ++ String.join (s.data.map escJsonChar) ++ "\""

mutual
/-- Model of JSON.stringify on the JSValue universe: undefined becomes null
inside arrays and is dropped from objects, exactly as in JavaScript.  The
parser only applies it to object and array cell values. -/
def jsonStringify : JSValue → String
  | .null => "null"
  | .undefined => "undefined"
  | .bool b => if b then "true" else "false"
  | .num n => toString n
  | .str s => jsonQuote s
  | .arr xs => "[" ++ joinSep "," (jsonStringifyArr xs) ++ "]"
  | .obj fs => "\x7b" ++ joinSep "," (jsonStringifyObj fs) ++ "\x7d"

def jsonStringifyArr : List JSValue → List String
  | [] => []
  | v :: vs =>
      (match v with
       | .undefined => "null"
       | w => jsonStringify w) :: jsonStringifyArr vs

def jsonStringifyObj : List (String × JSValue) → List String
  | [] => []
  | (k, v) :: rest =>
      match v with
      | .undefined => jsonStringifyObj rest
      | w => (jsonQuote k ++ ":" ++ jsonStringify w) :: jsonStringifyObj rest
end

/-- True for null and undefined, the two values on which JavaScript property
access and Object.keys throw a TypeError. -/
def jsIsNullish : JSValue → Bool
  | .null => true
  | .undefined => true
  | _ => false

/-- Object.keys on a non-nullish value: own keys of an object in order, and
index strings for an array or a string.  Numbers and booleans have no own
keys.  On null and undefined JavaScript throws; this total function returns
no keys there, and the throwing behaviour itself is modelled by jsKeysE
below, which the claims use to reason about the unguarded call sites. -/
def jsKeys : JSValue → List String
  | .obj fs => fs.map Prod.fst
  | .arr xs => (List.range xs.length).map (fun i => toString i)
  | .str s => (List.range s.length).map (fun i => toString i)
  | _ => []

/-- The canonical-index reading of a property key: some i exactly when the
key is the decimal rendering of i with no leading zeros or sign, the only
form under which JavaScript treats a string key as an array or string
index. -/
def jsCanonicalIndex (k : String) : Option Nat :=
  match k.toNat? with
  | some i => if toString i == k then some i else none
  | none => none

/-- Property read v[k] on a non-nullish value: first own entry of an object
(undefined when absent; inherited prototype properties are outside the
model), canonical index lookup and the length property for arrays and
strings (a string index yields a one-character string), undefined for other
primitives.  On null and undefined JavaScript throws; the throwing behaviour
is modelled by jsGetE below. -/
def jsGet : JSValue → String → JSValue
  | .obj fs, k =>
      match fs.find? (fun p => p.1 == k) with
      | some p => p.2
      | none => .undefined
  | .arr xs, k =>
      if k == "length" then .num (Int.ofNat xs.length)
      else
        match jsCanonicalIndex k with
        | some i => xs.getD i .undefined
        | none => .undefined
  | .str s, k =>
      if k == "length" then .num (Int.ofNat s.length)
      else
        match jsCanonicalIndex k with
        | some i =>
            match s.data[i]? with
            | some c => .str ⟨[c]⟩
            | none => .undefined
        | none => .undefined
  | _, _ => .undefined

/-- Object.keys with its exception behaviour: none models the TypeError
thrown on null and undefined. -/
def jsKeysE (v : JSValue) : Option (List String) :=
  if jsIsNullish v then none else some (jsKeys v)

/-- Property read with its exception behaviour: none models the TypeError
thrown on a null or undefined base. -/
def jsGetE (v : JSValue) (k : String) : Option JSValue :=
  if jsIsNullish v then none else some (jsGet v k)

/-- Sequence an effectful map over a list, stopping at the first none, in
the order the source loops run. -/
def mapOrNone (f : α → Option β) : List α → Option (List β)
  | [] => some []
  | a :: l =>
      match f a with
      | none => none
      | some b =>
          match mapOrNone f l with
          | none => none
          | some bs => some (b :: bs)

/-- Object.entries on a value, mirroring jsKeys. -/
def jsEntries : JSValue → List (String × JSValue)
  | .obj fs => fs
  | .arr xs => (List.range xs.length).map (fun i => (toString i, xs.getD i .undefined))
  | _ => []

/-- The two result shapes of the data parser. -/
inductive PDType where
  | table
  | text
deriving DecidableEq, Repr

/-- ParsedData from the data-parser module; absent fields are none. -/
structure ParsedData where
  type : PDType
  headers : Option (List String) := none
  rows : Option (List (List String)) := none
  text : Option String := none
deriving DecidableEq, Repr

/-- The shared cell rendering of the parser: empty string for null and
undefined, JSON serialization for nested objects and arrays, the plain string
coercion for everything else. -/
def renderCell : JSValue → String
  | .null => ""
  | .undefined => ""
  | .obj fs => jsonStringify (.obj fs)
  | .arr xs => jsonStringify (.arr xs)
  | v => jsToString v

/-- parseArrayOfObjects from the data parser: headers are the first-seen
union of the keys of all elements, one cell per header per element. -/
def parseArrayOfObjects (data : List JSValue) : ParsedData :=
  if data.length = 0 then { type := .text, text := some "" }
  else
    let headers := ((data.map jsKeys).join).eraseDups
    let rows := data.map fun obj => headers.map fun h => renderCell (jsGet obj h)
    { type := .table, headers := some headers, rows := some rows }

/-- parseArrayOfObjects with the exception behaviour of its unguarded
builtin calls: the forEach collecting Object.keys of every element runs
first and a null or undefined element makes it throw (none), then the row
loop reads every header off every element.  On inputs where nothing throws
this agrees with the total parseArrayOfObjects. -/
def parseArrayOfObjectsE (data : List JSValue) : Option ParsedData :=
  if data.length = 0 then some { type := .text, text := some "" }
  else
    match mapOrNone jsKeysE data with
    | none => none
    | some keyLists =>
        let headers := keyLists.join.eraseDups
        match mapOrNone
            (fun obj => mapOrNone (fun h => (jsGetE obj h).map renderCell) headers) data with
        | none => none
        | some rows => some { type := .table, headers := some headers, rows := some rows }

/-- parseObject from the data parser: the key-value table of Object.entries,
with the same cell rendering, and the brace-pair text for an empty object. -/
def parseObject (data : JSValue) : ParsedData :=
  let entries := jsEntries data
  if entries.length = 0 then { type := .text, text := some "\x7b\x7d" }
  else
    { type := .table,
      headers := some ["Property", "Value"],
      rows := some (entries.map fun p => [p.1, renderCell p.2]) }

/-- Helper for splitting on the line-break pattern carriage-return-optional
newline: accumulate characters in reverse, and on a newline emit the buffer
with one trailing carriage return removed. -/
def splitLinesAux : List Char → List Char → List String
  | [], cur => [⟨cur.reverse⟩]
  | c :: rest, cur =>
      if c = '\n' then
        (match cur with
         | '\r' :: tl => (⟨tl.reverse⟩ : String)
         | _ => (⟨cur.reverse⟩ : String)) :: splitLinesAux rest []
      else splitLinesAux rest (c :: cur)

/-- Model of the split on the regular expression matching an optional
carriage return followed by a newline. -/
def splitLines (s : String) : List String := splitLinesAux s.data []

/-- countDelimiter from the data parser: occurrences of the delimiter outside
double-quoted spans, with a bare quote toggling the in-quotes flag. -/
def countDelimiterAux (d : Char) : List Char → Bool → Nat
  | [], _ => 0
  | c :: rest, inQ =>
      if c = '"' then countDelimiterAux d rest (!inQ)
      else if c = d ∧ !inQ then 1 + countDelimiterAux d rest inQ
      else countDelimiterAux d rest inQ

/-- countDelimiter on a line. -/
def countDelimiter (line : String) (d : Char) : Nat := countDelimiterAux d line.data false

/-- parseCsvLine from the data parser: split on the delimiter outside quoted
spans, with doubled quotes inside a quoted span producing a literal quote,
and every cell trimmed. -/
def parseCsvLineAux (d : Char) : List Char → Bool → List Char → List String
  | [], _, cur => [jsTrim ⟨cur.reverse⟩]
  | '"' :: '"' :: rest2, inQ, cur =>
      if inQ then parseCsvLineAux d rest2 true ('"' :: cur)
      else parseCsvLineAux d ('"' :: rest2) true cur
  | '"' :: rest, inQ, cur => parseCsvLineAux d rest (!inQ) cur
  | c :: rest, inQ, cur =>
      if c = d ∧ !inQ then
        jsTrim ⟨cur.reverse⟩ :: parseCsvLineAux d rest inQ []
      else parseCsvLineAux d rest inQ (c :: cur)

/-- parseCsvLine on a line. -/
def parseCsvLine (line : String) (d : Char) : List String :=
  parseCsvLineAux d line.data false []

/-- The candidate delimiters of the data parser, in their fixed order. -/
def delimiters : List Char := ['\t', ',', ';', '|']

/-- One iteration of the delimiter-detection loop: skip a delimiter whose
first-line count is zero, otherwise replace the best candidate when this
delimiter has strictly more lines agreeing with its first-line count. -/
def pickStep (lines : List String) (acc : Char × Nat) (d : Char) : Char × Nat :=
  let counts := lines.map (fun l => countDelimiter l d)
  let firstCount := counts.headD 0
  if firstCount = 0 then acc
  else
    let consistent := (counts.filter (fun c => c = firstCount)).length
    if acc.2 < consistent ∧ 1 ≤ firstCount then (d, consistent) else acc

/-- The delimiter-detection loop of parseDelimitedText, starting from the
comma default with consistency zero. -/
def pickBest (lines : List String) : Char :=
  (delimiters.foldl (pickStep lines) (',', 0)).1

/-- The non-blank lines of the input, as computed at the top of
parseDelimitedText. -/
def linesOf (t : String) : List String :=
  (splitLines t).filter (fun l => jsTrim l != "")

/-- parseDelimitedText from the data parser.  The floating-point comparison
with eighty percent of the line count is exact at these magnitudes and is
modelled by the integer comparison five times consistent against four times
total. -/
def parseDelimitedText (t : String) : ParsedData :=
  let lines := linesOf t
  if lines.length < 2 then { type := .text, text := some t }
  else
    let bestDelimiter := pickBest lines
    let firstLineCount := countDelimiter (lines.headD "") bestDelimiter
    if firstLineCount = 0 then { type := .text, text := some t }
    else
      let parsedRows := lines.map (fun l => parseCsvLine l bestDelimiter)
      let columnCount := (parsedRows.headD []).length
      let consistentRows := parsedRows.filter (fun r => r.length = columnCount)
      if consistentRows.length * 5 < lines.length * 4 then { type := .text, text := some t }
      else
        { type := .table,
          headers := some (consistentRows.headD []),
          rows := some consistentRows.tail }

/-- parseExtractedData from the data parser.  The JSON.parse builtin and the
two regex-based HTML parsers of the module (parseHtmlTable and
parseHtmlProducts) are taken as parameters: every claim below holds for every
choice of these functions, because the claims only exercise inputs on which
the corresponding branches are dead. -/
def parseExtractedData (jsonParse : String → Option JSValue)
    (htmlTable : String → ParsedData) (htmlProducts : String → ParsedData)
    (data : JSValue) : ParsedData :=
  if jsFalsy data then { type := .text, text := some "" }
  else if jsIsArray data ∧ (jsArrElems data).length > 0 then
    (if jsIsObjectNotNull ((jsArrElems data).headD .null) then
      parseArrayOfObjects (jsArrElems data)
    else
      { type := .table,
        headers := some ["Value"],
        rows := some ((jsArrElems data).map fun item => [jsToString item]) })
  else if jsIsString data then
    let trimmed := jsTrim (jsStrVal data)
    let jsonResult : Option ParsedData :=
      if jsStartsWith trimmed "[" then
        match jsonParse trimmed with
        | some parsed =>
            if jsIsArray parsed ∧ (jsArrElems parsed).length > 0 then
              (if jsIsObjectNotNull ((jsArrElems parsed).headD .null) then
                some (parseArrayOfObjects (jsArrElems parsed))
              else
                some { type := .table,
                       headers := some ["Value"],
                       rows := some ((jsArrElems parsed).map fun item => [jsToString item]) })
            else none
        | none => none
      else none
    match jsonResult with
    | some r => r
    | none =>
      let tableResult : Option ParsedData :=
        if jsIncludes trimmed "<table" || jsIncludes trimmed "<TABLE" then
          let parsed := htmlTable trimmed
          if parsed.type == .table ∧ (parsed.rows.getD []).length > 0 then some parsed
          else none
        else none
      match tableResult with
      | some r => r
      | none =>
        let productResult : Option ParsedData :=
          if jsIncludes trimmed "<article" || jsIncludes trimmed "<div" then
            let parsed := htmlProducts trimmed
            if parsed.type == .table ∧ (parsed.rows.getD []).length > 0 then some parsed
            else none
          else none
        match productResult with
        | some r => r
        | none =>
          let delimitedResult := parseDelimitedText trimmed
          if delimitedResult.type == .table ∧ (delimitedResult.rows.getD []).length > 1 then
            delimitedResult
          else { type := .text, text := some trimmed }
  else if jsIsObjectNotNull data then parseObject data
  else { type := .text, text := some (jsToString data) }

/-- Claim-side column matcher: an expected column is present when some
case-folded first-row key contains the case-folded expected name, is
contained in it, or is within standard Levenshtein distance 2 of it. -/
def specColumnPresent (actualColumns : List String) (expected : String) : Bool :=
  (actualColumns.map jsToLower).any fun actual =>
    jsIncludes actual (jsToLower expected) || jsIncludes (jsToLower expected) actual ||
      decide (levSpec actual.data (jsToLower expected).data ≤ 2)

/-- Claim-side missing columns: the expected columns with no present match. -/
def specMissingColumns (actualColumns : List String) (expectedCols : List String) :
    List String :=
  expectedCols.filter fun e => !(specColumnPresent actualColumns e)

/-- Claim-side classification: a row with at least one field, all of whose
field values are empty. -/
def rowCompletelyEmpty (row : Row) : Bool :=
  !(rowFields row).isEmpty && (rowFields row).all (fun k => isEmptyValue (rowGet row k))

/-- Claim-side classification: a row with at least one empty and at least one
non-empty field value. -/
def rowPartiallyEmpty (row : Row) : Bool :=
  (rowFields row).any (fun k => isEmptyValue (rowGet row k)) &&
    (rowFields row).any (fun k => !(isEmptyValue (rowGet row k)))

/-- Claim-side list of 1-based indices of completely empty rows. -/
def specCompletelyEmptyIndices (data : List Row) : List Nat :=
  data.enum.filterMap fun p => if rowCompletelyEmpty p.2 then some (p.1 + 1) else none

/-- Claim-side list of partially empty rows with their empty field names. -/
def specPartialRows (data : List Row) : List (Nat × List String) :=
  data.enum.filterMap fun p =>
    if rowPartiallyEmpty p.2 then some (p.1 + 1, emptyFieldsOf p.2) else none

/-- Claim-side first-line delimiter count. -/
def firstLineCount (lines : List String) (d : Char) : Nat :=
  countDelimiter (lines.headD "") d

/-- Claim-side consistency score of a delimiter: the number of lines whose
count equals the first-line count. -/
def delimScore (lines : List String) (d : Char) : Nat :=
  ((lines.map (fun l => countDelimiter l d)).filter
    (fun c => c = firstLineCount lines d)).length

/-- Claim-side candidates: the delimiters, in their listed order, with a
non-zero count on the first line. -/
def delimCandidates (lines : List String) : List Char :=
  delimiters.filter (fun d => firstLineCount lines d ≠ 0)

/-- Claim-side chosen delimiter: the earliest-listed candidate achieving the
maximum consistency score, with the comma default when no candidate exists. -/
def specBestDelim (lines : List String) : Char :=
  let maxScore := ((delimCandidates lines).map (delimScore lines)).foldr max 0
  ((delimCandidates lines).find? (fun d => delimScore lines d = maxScore)).getD ','

/-- A trivial stand-in for the JSON.parse parameter in concrete evaluations
of parseExtractedData; the inputs used never reach that branch. -/
def noJsonParse : String → Option JSValue := fun _ => none

/-- A trivial stand-in for the HTML parser parameters in concrete evaluations
of parseExtractedData; the inputs used never reach those branches. -/
def textOnlyHtml : String → ParsedData := fun s => { type := .text, text := some s }

/-- C1.  For every input, the returned ValidationResult has isValid true
exactly when no issue of the result carries error severity; in particular a
result whose issues are all warnings is valid. -/
theorem c1_isValid_iff_no_error (params : ValidationParams) :
    (validateExtraction params).isValid = true ↔
      ∀ i ∈ (validateExtraction params).issues, i.severity ≠ Severity.error := by
  unfold validateExtraction
  by_cases h : params.data.length = 0
  · simp [h]
  · simp only [h, ite_false, if_false, Bool.not_eq_true']
    constructor
    · intro hno i hi
      have := (List.any_eq_false).mp hno i hi
      simpa [beq_iff_eq] using this
    · intro hall
      apply (List.any_eq_false).mpr
      intro i hi
      simpa [beq_iff_eq] using hall i hi

/-- C2.  With empty data, validateExtraction returns exactly the invalid
result with zero counts and the single insufficient-rows error whose message
is the no-data message and whose details record the expected minimum
(defaulting to 1) against an actual of 0. -/
theorem c2_empty_data (eco : Option (List String)) (emr : Option Nat) :
    validateExtraction { data := [], expectedColumns := eco, expectedMinRows := emr } =
      { isValid := false,
        validRows := 0,
        totalRows := 0,
        issues := [{ type := .insufficient_rows,
                     message := "No data was extracted",
                     severity := .error,
                     details := some { expected := some (.num (emr.getD 1)),
                                       actual := some (.num 0) } }] } := by
  cases emr <;> rfl

/-- C9.  The empty-array payload misses every array branch, reaches the
plain-object branch, and parseObject of a value with no entries returns the
text result containing the brace pair, not the empty text and not a table. -/
theorem c9_empty_array (jsonParse : String → Option JSValue)
    (htmlTable htmlProducts : String → ParsedData) :
    parseExtractedData jsonParse htmlTable htmlProducts (.arr []) =
      { type := .text, text := some "\x7b\x7d" } := by
  rfl

theorem mapOrNone_eq_some (f : α → Option β) (g : α → β) :
    ∀ (l : List α), (∀ a ∈ l, f a = some (g a)) → mapOrNone f l = some (l.map g) := by
  intro l
  induction l with
  | nil => intro _; rfl
  | cons a tl ih =>
      intro h
      have ha := h a (List.mem_cons_self a tl)
      have htl := ih (fun b hb => h b (List.mem_cons_of_mem a hb))
      unfold mapOrNone
      rw [ha, htl]
      rfl

theorem jsKeysE_of_not_nullish (v : JSValue) (h : jsIsNullish v = false) :
    jsKeysE v = some (jsKeys v) := by
  unfold jsKeysE
  rw [h]
  rfl

theorem jsGetE_of_not_nullish (v : JSValue) (k : String) (h : jsIsNullish v = false) :
    jsGetE v k = some (jsGet v k) := by
  unfold jsGetE
  rw [h]
  rfl

/-- On arrays with no nullish element nothing throws, and the
exception-aware parse agrees with the total one. -/
theorem parseArrayOfObjectsE_eq_total (data : List JSValue)
    (h : ∀ e ∈ data, jsIsNullish e = false) :
    parseArrayOfObjectsE data = some (parseArrayOfObjects data) := by
  unfold parseArrayOfObjectsE parseArrayOfObjects
  by_cases hlen : data.length = 0
  · simp [hlen]
  · simp only [hlen, ite_false, if_false]
    rw [mapOrNone_eq_some jsKeysE jsKeys data (fun e he => jsKeysE_of_not_nullish e (h e he))]
    dsimp only
    rw [mapOrNone_eq_some _
      (fun obj => ((data.map jsKeys).join.eraseDups).map fun hd => renderCell (jsGet obj hd))
      data
      (fun obj hobj => mapOrNone_eq_some _ _ _
        (fun hd _ => by rw [jsGetE_of_not_nullish obj hd (h obj hobj)]; rfl))]

/-- C4 counterexample.  The two-element array has an object first element, so
the claim asserts a table with the union of the keys of all elements; but the
unguarded Object.keys call of the source reaches the null second element and
throws a TypeError (modelled by none), so the program returns no table at
all. -/
theorem c4_counterexample :
    jsIsObjectNotNull
        (([.obj [("a", .str "1")], .null] : List JSValue).headD .null) = true ∧
    parseArrayOfObjectsE [.obj [("a", .str "1")], .null] = none := by
  exact ⟨rfl, rfl⟩

/-- C4 amended.  For a non-empty array whose first element passes the object
guard and which contains no null or undefined element (on those the program
throws instead), the parser returns a table whose headers are the first-seen
union of the keys of all elements, whose rows are the per-element cells
rendered by renderCell over a property read, in which every row has exactly
one cell per header; and the exception-aware parse agrees, so nothing
throws. -/
theorem c4_array_of_objects (jsonParse : String → Option JSValue)
    (htmlTable htmlProducts : String → ParsedData)
    (elems : List JSValue) (h1 : elems ≠ [])
    (h2 : jsIsObjectNotNull (elems.headD .null) = true)
    (h3 : ∀ e ∈ elems, jsIsNullish e = false) :
    parseExtractedData jsonParse htmlTable htmlProducts (.arr elems) =
      { type := .table,
        headers := some ((elems.map jsKeys).join.eraseDups),
        rows := some (elems.map fun e =>
          ((elems.map jsKeys).join.eraseDups).map fun h => renderCell (jsGet e h)) } ∧
    parseArrayOfObjectsE elems = some
      { type := .table,
        headers := some ((elems.map jsKeys).join.eraseDups),
        rows := some (elems.map fun e =>
          ((elems.map jsKeys).join.eraseDups).map fun h => renderCell (jsGet e h)) } ∧
    ∀ row ∈ (elems.map fun e =>
          ((elems.map jsKeys).join.eraseDups).map fun h => renderCell (jsGet e h)),
      row.length = ((elems.map jsKeys).join.eraseDups).length := by
  have hlen : elems.length > 0 := List.length_pos.mpr h1
  have hne : ¬ elems.length = 0 := Nat.pos_iff_ne_zero.mp hlen
  have hPAO : parseArrayOfObjects elems =
      { type := .table,
        headers := some ((elems.map jsKeys).join.eraseDups),
        rows := some (elems.map fun e =>
          ((elems.map jsKeys).join.eraseDups).map fun h => renderCell (jsGet e h)) } := by
    unfold parseArrayOfObjects
    simp [hne]
  refine ⟨?_, ?_, ?_⟩
  · unfold parseExtractedData
    simp only [jsFalsy, jsIsArray, jsArrElems, hlen, h2, ite_false, if_false, and_true,
      true_and, ite_true, if_true, Bool.false_eq_true, decide_True]
    simp [hlen, h2, parseArrayOfObjects, hne]
  · rw [parseArrayOfObjectsE_eq_total elems h3, hPAO]
  · intro row hrow
    rw [List.mem_map] at hrow
    obtain ⟨e, _, hrq⟩ := hrow
    rw [← hrq, List.length_map]

/-- Witness for C4 at a concrete two-object array with differing key sets, a
null value, and a nested array value; no element is nullish, so the
exception-aware parse returns the same table. -/
theorem c4_witness :
    (([.obj [("a", .str "1")], .obj [("b", .arr [.num 2]), ("a", .null)]] : List JSValue)
        ≠ []) ∧
    jsIsObjectNotNull
        (([.obj [("a", .str "1")], .obj [("b", .arr [.num 2]), ("a", .null)]] :
          List JSValue).headD .null) = true ∧
    (∀ e ∈ ([.obj [("a", .str "1")], .obj [("b", .arr [.num 2]), ("a", .null)]] :
          List JSValue), jsIsNullish e = false) ∧
    parseExtractedData noJsonParse textOnlyHtml textOnlyHtml
        (.arr [.obj [("a", .str "1")], .obj [("b", .arr [.num 2]), ("a", .null)]]) =
      { type := .table, headers := some ["a", "b"],
        rows := some [["1", ""], ["", "[2]"]] } ∧
    parseArrayOfObjectsE [.obj [("a", .str "1")], .obj [("b", .arr [.num 2]), ("a", .null)]] =
      some { type := .table, headers := some ["a", "b"],
             rows := some [["1", ""], ["", "[2]"]] } := by
  have hth := c4_array_of_objects noJsonParse textOnlyHtml textOnlyHtml
    [.obj [("a", .str "1")], .obj [("b", .arr [.num 2]), ("a", .null)]]
    (by simp) rfl (by intro e he; fin_cases he <;> rfl)
  refine ⟨by simp, rfl, by intro e he; fin_cases he <;> rfl, ?_, ?_⟩
  · rw [hth.1]
    rfl
  · rw [hth.2.1]
    rfl

theorem emptyFieldsOf_all (r : Row) (he : ∀ p ∈ r, isEmptyValue p.2 = true) :
    emptyFieldsOf r = rowFields r := by
  unfold emptyFieldsOf
  apply List.filter_eq_self.mpr
  intro k _
  unfold rowGet
  cases hfind : r.find? (fun p => p.1 == k) with
  | none => simp [isEmptyValue]
  | some p => exact he p (List.mem_of_find?_eq_some hfind)

/-- C8 counterexample.  The one-column dataset is valid, the appended row with
no fields at all is completely empty in the sense of the claim (every one of
its fields is vacuously empty), yet the validator still returns isValid true:
the scan counts a zero-field row as valid instead of completely empty, so no
error is raised and the claimed flip to false does not happen. -/
theorem c8_counterexample :
    (validateExtraction { data := [[("a", some "x")]] }).isValid = true ∧
    (∀ p ∈ ([] : Row), isEmptyValue p.2 = true) ∧
    (validateExtraction { data := [[("a", some "x")], []] }).isValid = true := by
  refine ⟨by decide, by simp, by decide⟩

/-- C8 amended.  Appending one or more completely-empty rows that each have at
least one field to any dataset makes the result invalid; in particular a valid
dataset becomes invalid and an invalid dataset never becomes valid. -/
theorem c8_append_empty_rows (params : ValidationParams) (extra : List Row)
    (hne : extra ≠ [])
    (hempty : ∀ r ∈ extra, r ≠ [] ∧ ∀ p ∈ r, isEmptyValue p.2 = true) :
    (validateExtraction { params with data := params.data ++ extra }).isValid = false := by
  obtain ⟨r, rest, rfl⟩ := List.exists_cons_of_ne_nil hne
  have hr := hempty r (List.mem_cons_self r rest)
  have hall : emptyFieldsOf r = rowFields r := emptyFieldsOf_all r hr.2
  have hrne : ¬ (rowFields r).length = 0 := by
    simp only [rowFields, List.length_map, List.length_eq_zero]
    exact hr.1
  have hidx : emptyRowIndices (params.data ++ r :: rest) ≠ [] := by
    intro hcontra
    rw [emptyRowIndices, List.filterMap_eq_nil] at hcontra
    have hmem : (params.data.length, r) ∈ (params.data ++ r :: rest).enum := by
      rw [List.mk_mem_enum_iff_get?]
      rw [List.get?_append_right (Nat.le_refl _)]
      simp
    have := hcontra _ hmem
    simp only [hall, hrne, ite_false, if_false, hrne] at this
    simp at this
  have hlen : ¬ (params.data ++ r :: rest).length = 0 := by
    simp [List.length_append]
  unfold validateExtraction
  simp only [hlen, ite_false, if_false]
  have hissne : ¬ (emptyRowIndices (params.data ++ r :: rest)).length = 0 := by
    simpa [List.length_eq_zero] using hidx
  rw [List.any_append, List.any_append, List.any_append, List.any_append]
  have hseg : (emptyRowIssues (params.data ++ r :: rest)).any
      (fun i => i.severity == Severity.error) = true := by
    unfold emptyRowIssues emptyRowIssuesFrom
    simp only [hissne, ite_false, if_false]
    simp
  rw [hseg]
  simp

theorem rowClass_complete (r : Row) :
    ((emptyFieldsOf r).length ≠ 0 ∧ (emptyFieldsOf r).length = (rowFields r).length) ↔
      rowCompletelyEmpty r = true := by
  unfold rowCompletelyEmpty emptyFieldsOf
  rw [Bool.and_eq_true, Bool.not_eq_true', List.all_eq_true]
  constructor
  · rintro ⟨h0, hl⟩
    have hall := (List.filter_length_eq_length).mp hl
    refine ⟨?_, hall⟩
    rw [List.isEmpty_eq_false]
    intro hnil
    apply h0
    rw [hnil]
    rfl
  · rintro ⟨hne, hall⟩
    have hl := (List.filter_length_eq_length).mpr hall
    refine ⟨?_, hl⟩
    rw [hl]
    rw [List.isEmpty_eq_false] at hne
    simpa [List.length_eq_zero] using hne

theorem rowClass_partlyEmpty (r : Row) :
    ((emptyFieldsOf r).length ≠ 0 ∧ (emptyFieldsOf r).length ≠ (rowFields r).length) ↔
      rowPartiallyEmpty r = true := by
  unfold rowPartiallyEmpty emptyFieldsOf
  rw [Bool.and_eq_true, List.any_eq_true, List.any_eq_true]
  constructor
  · rintro ⟨h0, hl⟩
    constructor
    · by_contra hno
      push_neg at hno
      apply h0
      have : List.filter (fun k => isEmptyValue (rowGet r k)) (rowFields r) = [] := by
        rw [List.filter_eq_nil_iff]
        intro a ha
        simpa using hno a ha
      rw [this]
      rfl
    · by_contra hno
      push_neg at hno
      apply hl
      apply List.filter_length_eq_length.mpr
      intro a ha
      have := hno a ha
      simpa using this
  · rintro ⟨⟨a, ha, hpa⟩, ⟨b, hb, hpb⟩⟩
    constructor
    · intro h0
      rw [List.length_eq_zero, List.filter_eq_nil_iff] at h0
      exact (h0 a ha) hpa
    · intro hl
      have := List.filter_length_eq_length.mp hl b hb
      simp only [this] at hpb
      simp at hpb

theorem emptyRowIndices_eq_spec (data : List Row) :
    emptyRowIndices data = specCompletelyEmptyIndices data := by
  unfold emptyRowIndices specCompletelyEmptyIndices
  apply List.filterMap_congr
  intro p _
  by_cases h1 : (emptyFieldsOf p.2).length = 0
  · have hc : rowCompletelyEmpty p.2 = false := by
      rw [Bool.eq_false_iff]
      intro hR
      exact ((rowClass_complete p.2).mpr hR).1 h1
    rw [if_pos h1, if_neg (by simp [hc])]
  · by_cases h2 : (emptyFieldsOf p.2).length = (rowFields p.2).length
    · have hc : rowCompletelyEmpty p.2 = true := (rowClass_complete p.2).mp ⟨h1, h2⟩
      rw [if_neg h1, if_pos h2, if_pos hc]
    · have hc : rowCompletelyEmpty p.2 = false := by
        rw [Bool.eq_false_iff]
        intro hR
        exact h2 ((rowClass_complete p.2).mpr hR).2
      rw [if_neg h1, if_neg h2, if_neg (by simp [hc])]

theorem partiallyEmptyRows_eq_spec (data : List Row) :
    partiallyEmptyRows data = specPartialRows data := by
  unfold partiallyEmptyRows specPartialRows
  apply List.filterMap_congr
  intro p _
  by_cases h1 : (emptyFieldsOf p.2).length = 0
  · have hc : rowPartiallyEmpty p.2 = false := by
      rw [Bool.eq_false_iff]
      intro hR
      exact ((rowClass_partlyEmpty p.2).mpr hR).1 h1
    rw [if_pos h1, if_neg (by simp [hc])]
  · by_cases h2 : (emptyFieldsOf p.2).length = (rowFields p.2).length
    · have hc : rowPartiallyEmpty p.2 = false := by
        rw [Bool.eq_false_iff]
        intro hR
        exact ((rowClass_partlyEmpty p.2).mpr hR).2 h2
      rw [if_neg h1, if_pos h2, if_neg (by simp [hc])]
    · have hc : rowPartiallyEmpty p.2 = true := (rowClass_partlyEmpty p.2).mp ⟨h1, h2⟩
      rw [if_neg h1, if_neg h2, if_pos hc]

theorem filter_ef_rowCount (data : List Row) (emr : Option Nat) :
    (rowCountIssues data emr).filter (fun i => i.type == IssueType.empty_field) = [] := by
  unfold rowCountIssues
  cases emr with
  | none => rfl
  | some m =>
      by_cases h : m ≠ 0 ∧ data.length < m
      · simp [h]
      · simp [h]

theorem filter_ef_column (data : List Row) (eco : Option (List String)) :
    (columnIssues data eco).filter (fun i => i.type == IssueType.empty_field) = [] := by
  unfold columnIssues
  cases eco with
  | none => rfl
  | some ec =>
      by_cases h1 : ec.length = 0
      · simp [h1]
      · by_cases h2 : (missingColumnsOf
            (if data.length > 0 then rowFields (data.headD []) else []) ec).length = 0
        · simp [h1, h2]
        · simp [h1, h2]

theorem filter_ef_consistency (data : List Row) :
    (consistencyIssues data).filter (fun i => i.type == IssueType.empty_field) = [] := by
  unfold consistencyIssues
  by_cases h1 : data.length > 1
  · by_cases h2 : (data.filter fun row =>
        !((rowFields row).length == (rowFields (data.headD [])).eraseDups.length &&
          (rowFields row).all (fun k => (rowFields (data.headD [])).contains k))).length > 0
    · simp [h1, h2]
    · simp [h1, h2]
  · simp [h1]

theorem filter_ef_emptyRowIssuesFrom (idxs : List Nat) :
    (emptyRowIssuesFrom idxs).filter (fun i => i.type == IssueType.empty_field) =
      emptyRowIssuesFrom idxs := by
  unfold emptyRowIssuesFrom
  by_cases h : idxs.length = 0
  · simp [h]
  · simp [h]

theorem filter_ef_partialIssuesFrom (pe : List (Nat × List String)) :
    (partialIssuesFrom pe).filter (fun i => i.type == IssueType.empty_field) =
      partialIssuesFrom pe := by
  unfold partialIssuesFrom
  by_cases h1 : pe.length = 0
  · simp [h1]
  · by_cases h2 : pe.length ≤ 3
    · simp only [h1, h2, ite_true, ite_false, if_false, if_true]
      apply List.filter_eq_self.mpr
      intro i hi
      rw [List.mem_map] at hi
      obtain ⟨pr, _, hpr⟩ := hi
      rw [← hpr]
      rfl
    · simp [h1, h2]

theorem validRowsOf_eq_spec (data : List Row) :
    validRowsOf data =
      (data.filter (fun r => (rowFields r).all fun k => !(isEmptyValue (rowGet r k)))).length := by
  unfold validRowsOf
  congr 1
  apply List.filter_congr
  intro r _
  rw [Bool.eq_iff_iff]
  rw [decide_eq_true_iff]
  rw [List.all_eq_true]
  unfold emptyFieldsOf
  rw [List.length_eq_zero, List.filter_eq_nil_iff]
  constructor
  · intro h a ha
    simpa using h a ha
  · intro h a ha
    simpa using h a ha

/-- C5 counterexample.  For the dataset consisting of one row with no fields,
every field of row 1 is vacuously empty, so the claim requires an aggregated
empty-field error listing index 1; the code instead counts the row as valid
and returns no issues at all. -/
theorem c5_counterexample :
    (∀ k ∈ rowFields ([] : Row), isEmptyValue (rowGet ([] : Row) k) = true) ∧
    validateExtraction { data := [[]] } =
      { isValid := true, validRows := 1, totalRows := 1, issues := [] } := by
  exact ⟨by simp [rowFields], by decide⟩

/-- C5 amended.  For non-empty data, validRows counts the rows with no empty
field; the empty-field issues of the result are exactly one aggregated Error
listing the 1-based indices of the rows that have at least one field and all
fields empty (absent when there are none), followed by one Warning per
partially empty row when there are at most three of them and by a single
count-only aggregated Warning when there are more. -/
theorem c5_empty_field_report (params : ValidationParams) (h : params.data ≠ []) :
    (validateExtraction params).validRows =
      (params.data.filter (fun r => (rowFields r).all fun k => !(isEmptyValue (rowGet r k)))).length ∧
    (validateExtraction params).issues.filter (fun i => i.type == IssueType.empty_field) =
      emptyRowIssuesFrom (specCompletelyEmptyIndices params.data) ++
        partialIssuesFrom (specPartialRows params.data) := by
  have hlen : ¬ params.data.length = 0 := by
    simpa [List.length_eq_zero] using h
  unfold validateExtraction
  simp only [hlen, ite_false, if_false]
  constructor
  · exact validRowsOf_eq_spec params.data
  · rw [List.filter_append, List.filter_append, List.filter_append, List.filter_append]
    rw [filter_ef_rowCount, filter_ef_column, filter_ef_consistency]
    unfold emptyRowIssues partialIssues
    rw [filter_ef_emptyRowIssuesFrom, filter_ef_partialIssuesFrom]
    rw [emptyRowIndices_eq_spec, partiallyEmptyRows_eq_spec]
    simp

/-- Witness for C5 at the scenario-C dataset: one row, price empty, title
non-empty, giving zero fully valid rows and exactly one partial warning. -/
theorem c5_witness :
    (([[("title", some "A"), ("price", some "")]] : List Row) ≠ []) ∧
    (validateExtraction { data := [[("title", some "A"), ("price", some "")]] }).validRows =
      (([[("title", some "A"), ("price", some "")]] : List Row).filter
        (fun r => (rowFields r).all fun k => !(isEmptyValue (rowGet r k)))).length ∧
    (validateExtraction { data := [[("title", some "A"), ("price", some "")]] }).issues.filter
        (fun i => i.type == IssueType.empty_field) =
      emptyRowIssuesFrom
          (specCompletelyEmptyIndices [[("title", some "A"), ("price", some "")]]) ++
        partialIssuesFrom (specPartialRows [[("title", some "A"), ("price", some "")]]) := by
  refine ⟨by simp, ?_, ?_⟩
  · exact (c5_empty_field_report { data := [[("title", some "A"), ("price", some "")]] }
      (by simp)).1
  · exact (c5_empty_field_report { data := [[("title", some "A"), ("price", some "")]] }
      (by simp)).2

theorem filter_mc_rowCount (data : List Row) (emr : Option Nat) :
    (rowCountIssues data emr).filter (fun i => i.type == IssueType.missing_column) = [] := by
  unfold rowCountIssues
  cases emr with
  | none => rfl
  | some m =>
      by_cases h : m ≠ 0 ∧ data.length < m
      · simp [h]
      · simp [h]

theorem filter_mc_consistency (data : List Row) :
    (consistencyIssues data).filter (fun i => i.type == IssueType.missing_column) = [] := by
  unfold consistencyIssues
  by_cases h1 : data.length > 1
  · by_cases h2 : (data.filter fun row =>
        !((rowFields row).length == (rowFields (data.headD [])).eraseDups.length &&
          (rowFields row).all (fun k => (rowFields (data.headD [])).contains k))).length > 0
    · simp [h1, h2]
    · simp [h1, h2]
  · simp [h1]

theorem filter_mc_emptyRowIssuesFrom (idxs : List Nat) :
    (emptyRowIssuesFrom idxs).filter (fun i => i.type == IssueType.missing_column) = [] := by
  unfold emptyRowIssuesFrom
  by_cases h : idxs.length = 0
  · simp [h]
  · simp [h]

theorem filter_mc_partialIssuesFrom (pe : List (Nat × List String)) :
    (partialIssuesFrom pe).filter (fun i => i.type == IssueType.missing_column) = [] := by
  unfold partialIssuesFrom
  by_cases h1 : pe.length = 0
  · simp [h1]
  · by_cases h2 : pe.length ≤ 3
    · simp only [h1, h2, ite_true, ite_false, if_false, if_true]
      rw [List.filter_eq_nil_iff]
      intro i hi
      rw [List.mem_map] at hi
      obtain ⟨pr, _, hpr⟩ := hi
      rw [← hpr]
      simp
    · simp [h1, h2]

theorem filter_mc_column (data : List Row) (eco : Option (List String)) :
    (columnIssues data eco).filter (fun i => i.type == IssueType.missing_column) =
      columnIssues data eco := by
  unfold columnIssues
  cases eco with
  | none => rfl
  | some ec =>
      by_cases h1 : ec.length = 0
      · simp [h1]
      · by_cases h2 : (missingColumnsOf
            (if data.length > 0 then rowFields (data.headD []) else []) ec).length = 0
        · simp [h1, h2]
        · simp [h1, h2]

theorem missingColumnsOf_eq_spec (actualColumns : List String) (ec : List String) :
    missingColumnsOf actualColumns ec = specMissingColumns actualColumns ec := by
  unfold missingColumnsOf specMissingColumns specColumnPresent
  simp only [levenshteinDistance_eq_levSpec]

/-- C3.  For non-empty data and a non-empty expected-column list, the
missing-column issues of the result are exactly the single aggregated Error
listing the expected columns that have no fuzzy match among the case-folded
first-row keys, where a match is substring containment either way or standard
Levenshtein edit distance at most 2, and no issue at all when every expected
column matches. -/
theorem c3_missing_columns (params : ValidationParams) (ec : List String)
    (h1 : params.data ≠ []) (h2 : params.expectedColumns = some ec) (h3 : ec ≠ []) :
    (validateExtraction params).issues.filter (fun i => i.type == IssueType.missing_column) =
      (if specMissingColumns (rowFields (params.data.headD [])) ec = [] then []
       else
        [{ type := .missing_column,
           message := "Missing expected columns: " ++
             joinSep ", " (specMissingColumns (rowFields (params.data.headD [])) ec),
           severity := .error,
           details := some
             { expected := some (.str (joinSep ", "
                 (specMissingColumns (rowFields (params.data.headD [])) ec))),
               actual := some (.str (joinSep ", " (rowFields (params.data.headD [])))) } }]) := by
  have hlen : ¬ params.data.length = 0 := by
    simpa [List.length_eq_zero] using h1
  have hpos : params.data.length > 0 := Nat.pos_of_ne_zero hlen
  have hecl : ¬ ec.length = 0 := by
    simpa [List.length_eq_zero] using h3
  unfold validateExtraction
  simp only [hlen, ite_false, if_false]
  rw [List.filter_append, List.filter_append, List.filter_append, List.filter_append]
  unfold emptyRowIssues partialIssues
  rw [filter_mc_rowCount, filter_mc_consistency, filter_mc_emptyRowIssuesFrom,
    filter_mc_partialIssuesFrom, filter_mc_column]
  simp only [List.nil_append, List.append_nil]
  rw [h2]
  unfold columnIssues
  simp only [hecl, ite_false, if_false]
  rw [if_pos hpos]
  rw [missingColumnsOf_eq_spec]
  by_cases hmc : specMissingColumns (rowFields (params.data.headD [])) ec = []
  · simp [hmc]
  · have hmcl : ¬ (specMissingColumns (rowFields (params.data.headD [])) ec).length = 0 := by
      simpa [List.length_eq_zero] using hmc
    simp [hmc, hmcl]

/-- Witness for C3 at scenario D: the single key ttl fuzzily matches the
expected column title at edit distance 2, so no missing-column issue is
raised. -/
theorem c3_witness :
    (([[("ttl", some "A")]] : List Row) ≠ []) ∧
    (["title"] ≠ ([] : List String)) ∧
    (validateExtraction
        { data := [[("ttl", some "A")]], expectedColumns := some ["title"] }).issues.filter
      (fun i => i.type == IssueType.missing_column) = [] := by
  have hval : specMissingColumns
      (rowFields (([[("ttl", some "A")]] : List Row).headD [])) ["title"] = [] := by
    rw [← missingColumnsOf_eq_spec]
    decide
  refine ⟨by simp, by simp, ?_⟩
  rw [c3_missing_columns
    { data := [[("ttl", some "A")]], expectedColumns := some ["title"] } ["title"]
    (by simp) rfl (by simp)]
  rw [if_pos hval]

/-- C6 counterexample.  On the two-line input of the claim, delimited parsing
does yield the header row plus one data row, yet parseExtractedData falls
back to text: the acceptance test requires the data-row list, which excludes
the header, to have more than one element. -/
theorem c6_counterexample :
    parseDelimitedText "a,b\n1,2" =
      { type := .table, headers := some ["a", "b"], rows := some [["1", "2"]] } ∧
    parseExtractedData noJsonParse textOnlyHtml textOnlyHtml (.str "a,b\n1,2") =
      { type := .text, text := some "a,b\n1,2" } := by
  exact ⟨by decide, by decide⟩

/-- C6 amended.  For a string payload whose trimmed form does not start with
a left bracket and contains none of the four HTML trigger substrings the code
checks (lowercase table tag, uppercase table tag, article tag, div tag), if
delimited-text parsing yields a table with at least two data rows after the
header, parseExtractedData returns exactly that table; with only one data row
the parser instead falls back to text, as the counterexample shows. -/
theorem c6_delimited_table (jsonParse : String → Option JSValue)
    (htmlTable htmlProducts : String → ParsedData) (s : String)
    (h1 : jsStartsWith (jsTrim s) "[" = false)
    (h2 : jsIncludes (jsTrim s) "<table" = false)
    (h3 : jsIncludes (jsTrim s) "<TABLE" = false)
    (h4 : jsIncludes (jsTrim s) "<article" = false)
    (h5 : jsIncludes (jsTrim s) "<div" = false)
    (h6 : (parseDelimitedText (jsTrim s)).type = .table)
    (h7 : 1 < ((parseDelimitedText (jsTrim s)).rows.getD []).length) :
    parseExtractedData jsonParse htmlTable htmlProducts (.str s) =
      parseDelimitedText (jsTrim s) := by
  have hs : (s == "") = false := by
    rw [beq_eq_false_iff_ne]
    intro hempty
    subst hempty
    have : parseDelimitedText (jsTrim "") = { type := .text, text := some (jsTrim "") } := rfl
    rw [this] at h6
    simp at h6
  unfold parseExtractedData
  simp only [jsFalsy, jsIsArray, jsIsString, jsStrVal, hs, Bool.false_eq_true, ite_false,
    if_false, false_and, ite_true, if_true]
  simp only [h1, Bool.false_eq_true, ite_false, if_false]
  simp only [h2, h3, h4, h5, Bool.or_self, Bool.false_eq_true, ite_false, if_false]
  have hcond : (parseDelimitedText (jsTrim s)).type == PDType.table ∧
      1 < ((parseDelimitedText (jsTrim s)).rows.getD []).length := by
    exact ⟨by rw [h6]; rfl, h7⟩
  rw [if_pos hcond]

/-- Witness for C6 at a three-line comma input: two data rows after the
header, so the delimited table is returned. -/
theorem c6_witness :
    jsStartsWith (jsTrim "a,b\n1,2\n3,4") "[" = false ∧
    jsIncludes (jsTrim "a,b\n1,2\n3,4") "<table" = false ∧
    jsIncludes (jsTrim "a,b\n1,2\n3,4") "<TABLE" = false ∧
    jsIncludes (jsTrim "a,b\n1,2\n3,4") "<article" = false ∧
    jsIncludes (jsTrim "a,b\n1,2\n3,4") "<div" = false ∧
    (parseDelimitedText (jsTrim "a,b\n1,2\n3,4")).type = .table ∧
    1 < ((parseDelimitedText (jsTrim "a,b\n1,2\n3,4")).rows.getD []).length ∧
    parseExtractedData noJsonParse textOnlyHtml textOnlyHtml (.str "a,b\n1,2\n3,4") =
      parseDelimitedText (jsTrim "a,b\n1,2\n3,4") := by
  refine ⟨by decide, by decide, by decide, by decide, by decide, by decide, by decide, ?_⟩
  exact c6_delimited_table noJsonParse textOnlyHtml textOnlyHtml "a,b\n1,2\n3,4"
    (by decide) (by decide) (by decide) (by decide) (by decide) (by decide) (by decide)

/-- C10.  Whenever parseDelimitedText returns a table, every data row has
exactly one cell per header: lines whose parsed cell count differs from the
first line are filtered out before the headers and rows are taken. -/
theorem c10_row_width_invariant (t : String) (hdrs : List String)
    (rws : List (List String))
    (h : parseDelimitedText t = { type := .table, headers := some hdrs, rows := some rws }) :
    ∀ r ∈ rws, r.length = hdrs.length := by
  unfold parseDelimitedText at h
  by_cases c1 : (linesOf t).length < 2
  · rw [if_pos c1] at h
    simp at h
  · rw [if_neg c1] at h
    by_cases c2 : countDelimiter ((linesOf t).headD "") (pickBest (linesOf t)) = 0
    · rw [if_pos c2] at h
      simp at h
    · rw [if_neg c2] at h
      by_cases c3 : (((linesOf t).map (fun l => parseCsvLine l (pickBest (linesOf t)))).filter
            (fun r => r.length =
              (((linesOf t).map
                (fun l => parseCsvLine l (pickBest (linesOf t)))).headD []).length)).length * 5 <
          (linesOf t).length * 4
      · rw [if_pos c3] at h
        simp at h
      · rw [if_neg c3] at h
        simp only [ParsedData.mk.injEq, Option.some.injEq] at h
        obtain ⟨_, hh, hr, _⟩ := h
        intro r hr2
        rw [← hr] at hr2
        have hmem : r ∈ ((linesOf t).map (fun l => parseCsvLine l (pickBest (linesOf t)))).filter
            (fun r => r.length =
              (((linesOf t).map
                (fun l => parseCsvLine l (pickBest (linesOf t)))).headD []).length) := by
          exact List.mem_of_mem_tail hr2
        have hrlen := of_decide_eq_true (List.mem_filter.mp hmem).2
        cases hcr : ((linesOf t).map (fun l => parseCsvLine l (pickBest (linesOf t)))).filter
            (fun r => r.length =
              (((linesOf t).map
                (fun l => parseCsvLine l (pickBest (linesOf t)))).headD []).length) with
        | nil =>
            rw [hcr] at hr2
            simp at hr2
        | cons chead ctail =>
            have hheadmem : chead ∈ ((linesOf t).map
                (fun l => parseCsvLine l (pickBest (linesOf t)))).filter
                (fun r => r.length =
                  (((linesOf t).map
                    (fun l => parseCsvLine l (pickBest (linesOf t)))).headD []).length) := by
              rw [hcr]
              exact List.mem_cons_self _ _
            have hheadlen := of_decide_eq_true (List.mem_filter.mp hheadmem).2
            rw [← hh, hcr]
            simp only [List.headD_cons]
            rw [hrlen, hheadlen]

theorem c10_witness :
    parseDelimitedText "a,b\nx\n1,2\n3,4\n5,6" =
      { type := .table, headers := some ["a", "b"],
        rows := some [["1", "2"], ["3", "4"], ["5", "6"]] } ∧
    ∀ r ∈ [["1", "2"], ["3", "4"], ["5", "6"]],
      r.length = (["a", "b"] : List String).length := by
  refine ⟨by decide, ?_⟩
  exact c10_row_width_invariant "a,b\nx\n1,2\n3,4\n5,6" ["a", "b"]
    [["1", "2"], ["3", "4"], ["5", "6"]] (by decide)

theorem counts_headD (lines : List String) (d : Char) :
    ((lines.map (fun l => countDelimiter l d)).headD 0) = firstLineCount lines d := by
  cases lines with
  | nil => rfl
  | cons l0 rest => rfl

theorem pickStep_eq (lines : List String) (acc : Char × Nat) (d : Char) :
    pickStep lines acc d =
      if firstLineCount lines d = 0 then acc
      else if acc.2 < delimScore lines d then (d, delimScore lines d) else acc := by
  unfold pickStep delimScore
  simp only [counts_headD]
  by_cases hfc : firstLineCount lines d = 0
  · simp [hfc]
  · have h1 : 1 ≤ firstLineCount lines d := Nat.one_le_iff_ne_zero.mpr hfc
    simp [hfc, h1]

/-- The maximum consistency score over the candidates drawn from a delimiter
list. -/
def maxScoreOf (lines : List String) (ds : List Char) : Nat :=
  ((ds.filter (fun d => firstLineCount lines d ≠ 0)).map (delimScore lines)).foldr max 0

theorem le_foldr_max (l : List Nat) : ∀ x ∈ l, x ≤ l.foldr max 0 := by
  induction l with
  | nil => intro x hx; simp at hx
  | cons a tl ih =>
      intro x hx
      rcases List.mem_cons.mp hx with h | h
      · subst h
        exact le_max_left _ _
      · exact le_trans (ih x h) (le_max_right _ _)

theorem score_pos (lines : List String) (d : Char) (h : firstLineCount lines d ≠ 0) :
    1 ≤ delimScore lines d := by
  cases lines with
  | nil => exact absurd rfl h
  | cons l0 rest =>
      unfold delimScore
      have : firstLineCount (l0 :: rest) d = countDelimiter l0 d := rfl
      rw [this]
      simp only [List.map_cons, List.filter_cons]
      simp

theorem pickFoldAux (lines : List String) :
    ∀ (ds : List Char) (acc : Char × Nat),
      (acc.2 < maxScoreOf lines ds →
        ∃ d, ((ds.filter (fun e => firstLineCount lines e ≠ 0)).find?
            (fun e => delimScore lines e = maxScoreOf lines ds)) = some d ∧
          ds.foldl (pickStep lines) acc = (d, maxScoreOf lines ds)) ∧
      (¬ acc.2 < maxScoreOf lines ds → ds.foldl (pickStep lines) acc = acc) := by
  intro ds
  induction ds with
  | nil =>
      intro acc
      constructor
      · intro hlt
        exact absurd hlt (by simp [maxScoreOf])
      · intro _
        rfl
  | cons d ds2 ih =>
      intro acc
      by_cases hc : firstLineCount lines d ≠ 0
      · have hfilter : (d :: ds2).filter (fun e => firstLineCount lines e ≠ 0)
            = d :: ds2.filter (fun e => firstLineCount lines e ≠ 0) := by
          simp [List.filter_cons, hc]
        have hM : maxScoreOf lines (d :: ds2)
            = max (delimScore lines d) (maxScoreOf lines ds2) := by
          unfold maxScoreOf
          rw [hfilter, List.map_cons, List.foldr_cons]
        have hstep : (d :: ds2).foldl (pickStep lines) acc
            = ds2.foldl (pickStep lines)
                (if acc.2 < delimScore lines d then (d, delimScore lines d) else acc) := by
          rw [List.foldl_cons, pickStep_eq, if_neg (by simpa using hc)]
        by_cases hlt : acc.2 < delimScore lines d
        · have ih2 := ih (d, delimScore lines d)
          by_cases h2 : delimScore lines d < maxScoreOf lines ds2
          · obtain ⟨e, hfind, hfold⟩ := ih2.1 h2
            have hMeq : maxScoreOf lines (d :: ds2) = maxScoreOf lines ds2 := by
              rw [hM]; omega
            constructor
            · intro _
              refine ⟨e, ?_, ?_⟩
              · rw [hfilter, hMeq]
                rw [List.find?_cons_of_neg _ (by simp; omega)]
                exact hfind
              · rw [hstep, if_pos hlt, hfold, hMeq]
            · intro hnlt
              exfalso
              apply hnlt
              rw [hM]
              omega
          · have hfold := ih2.2 (by simpa using h2)
            have hMeq : maxScoreOf lines (d :: ds2) = delimScore lines d := by
              rw [hM]; omega
            constructor
            · intro _
              refine ⟨d, ?_, ?_⟩
              · rw [hfilter, hMeq]
                rw [List.find?_cons_of_pos _ (by simp)]
              · rw [hstep, if_pos hlt, hfold, hMeq]
            · intro hnlt
              exfalso
              apply hnlt
              rw [hMeq]
              exact hlt
        · have ih2 := ih acc
          have hstep2 : (d :: ds2).foldl (pickStep lines) acc
              = ds2.foldl (pickStep lines) acc := by
            rw [hstep, if_neg hlt]
          have hs : delimScore lines d ≤ acc.2 := Nat.le_of_not_lt hlt
          constructor
          · intro hltM
            have hM2 : acc.2 < maxScoreOf lines ds2 := by
              rw [hM] at hltM
              omega
            obtain ⟨e, hfind, hfold⟩ := ih2.1 hM2
            have hMeq : maxScoreOf lines (d :: ds2) = maxScoreOf lines ds2 := by
              rw [hM]; omega
            refine ⟨e, ?_, ?_⟩
            · rw [hfilter, hMeq]
              rw [List.find?_cons_of_neg _ (by simp; omega)]
              exact hfind
            · rw [hstep2, hfold, hMeq]
          · intro hnlt
            have hn2 : ¬ acc.2 < maxScoreOf lines ds2 := by
              rw [hM] at hnlt
              omega
            rw [hstep2]
            exact ih2.2 hn2
      · push_neg at hc
        have hfilter : (d :: ds2).filter (fun e => firstLineCount lines e ≠ 0)
            = ds2.filter (fun e => firstLineCount lines e ≠ 0) := by
          simp [List.filter_cons, hc]
        have hM : maxScoreOf lines (d :: ds2) = maxScoreOf lines ds2 := by
          unfold maxScoreOf
          rw [hfilter]
        have hstep : (d :: ds2).foldl (pickStep lines) acc
            = ds2.foldl (pickStep lines) acc := by
          rw [List.foldl_cons, pickStep_eq, if_pos hc]
        rw [hM, hfilter, hstep]
        exact ih acc

theorem pickBest_eq_specBestDelim (lines : List String) :
    pickBest lines = specBestDelim lines := by
  unfold pickBest specBestDelim
  by_cases h0 : (0 : Nat) < maxScoreOf lines delimiters
  · obtain ⟨e, hfind, hfold⟩ := (pickFoldAux lines delimiters (',', 0)).1 h0
    rw [hfold]
    show e = (List.find? (fun d => decide (delimScore lines d = maxScoreOf lines delimiters))
        (delimiters.filter (fun e => decide (firstLineCount lines e ≠ 0)))).getD ','
    rw [hfind]
    rfl
  · have hfold := (pickFoldAux lines delimiters (',', 0)).2 h0
    rw [hfold]
    have hcand : delimiters.filter (fun e => firstLineCount lines e ≠ 0) = [] := by
      by_contra hne
      obtain ⟨d, hd⟩ := List.exists_mem_of_ne_nil _ hne
      have hdc : firstLineCount lines d ≠ 0 := by
        have := (List.mem_filter.mp hd).2
        simpa using this
      have hscore := score_pos lines d hdc
      have hle : delimScore lines d ≤ maxScoreOf lines delimiters := by
        apply le_foldr_max
        exact List.mem_map_of_mem _ hd
      omega
    show (',' : Char) =
      (List.find? (fun d => decide (delimScore lines d = maxScoreOf lines delimiters))
        (delimiters.filter (fun e => decide (firstLineCount lines e ≠ 0)))).getD ','
    have hcand' : delimiters.filter (fun e => decide (firstLineCount lines e ≠ 0)) = [] := hcand
    rw [hcand']
    rfl

/-- C7.  The delimiter the loop chooses is always the earliest-listed
candidate (tab before comma before semicolon before pipe, among those with a
non-zero count on the first line) achieving the maximum number of lines that
share the first-line count; and when the chosen delimiter has first-line
count zero the input is rejected with the text fallback. -/
theorem c7_delimiter_determinism (t : String) :
    pickBest (linesOf t) = specBestDelim (linesOf t) ∧
    (firstLineCount (linesOf t) (pickBest (linesOf t)) = 0 →
      parseDelimitedText t = { type := .text, text := some t }) := by
  constructor
  · exact pickBest_eq_specBestDelim (linesOf t)
  · intro h0
    unfold parseDelimitedText
    by_cases c1 : (linesOf t).length < 2
    · rw [if_pos c1]
    · rw [if_neg c1]
      have h0a : countDelimiter ((linesOf t).headD "") (pickBest (linesOf t)) = 0 := h0
      rw [List.headD_eq_head?_getD] at h0a
      simp [h0a]

/-- Witness for C7 at an input with no delimiter at all: the loop keeps the
comma default, its first-line count is zero, and the parser rejects to
text. -/
theorem c7_witness :
    firstLineCount (linesOf "ab\ncd") (pickBest (linesOf "ab\ncd")) = 0 ∧
    pickBest (linesOf "ab\ncd") = specBestDelim (linesOf "ab\ncd") ∧
    parseDelimitedText "ab\ncd" = { type := .text, text := some "ab\ncd" } := by
  refine ⟨by decide, (c7_delimiter_determinism "ab\ncd").1,
    (c7_delimiter_determinism "ab\ncd").2 (by decide)⟩

/-- Witness for the amended C8: appending one single-field completely-empty
row to a valid one-row dataset flips the verdict to invalid. -/
theorem c8_witness :
    (([[("b", some "")]] : List Row) ≠ []) ∧
    (∀ r ∈ ([[("b", some "")]] : List Row), r ≠ [] ∧ ∀ p ∈ r, isEmptyValue p.2 = true) ∧
    (validateExtraction { data := [[("a", some "x")], [("b", some "")]] }).isValid = false := by
  refine ⟨by simp, by decide, ?_⟩
  exact c8_append_empty_rows { data := [[("a", some "x")]] } [[("b", some "")]]
    (by simp) (by decide)
